import Mathlib

/-!
Verification of the mqbench NLP quantizer module and the imagenet example
training/deployment driver, against their specification.

Python strings are embedded as lists of characters (`PyStr`), Python dicts as
association lists with insertion-order semantics, Python floats as rationals,
and the driver's externally-visible actions (file writes, batch-norm folding,
mode transitions) as explicit event traces.
-/

set_option autoImplicit false

namespace MQBench

/-- Python strings, embedded as lists of characters. -/
abbrev PyStr := List Char

/-- Conversion from a Lean string literal to the embedded Python string. -/
def pstr (s : String) : PyStr := s.toList

/-- Python's substring test `pat in s`. -/
def containsSub (s pat : PyStr) : Bool :=
  (List.range (s.length + 1)).any (fun i => pat.isPrefixOf (s.drop i))

/-! ## Quantizer rule tables

Embedding of `src/mqbench/custom_quantizer/nlp_quantizer.py`.  Torch function
objects and torch module classes are represented by tags; the tags that the
source file mentions by name get their own constructors. -/

/-- Torch function objects that can appear in a function-type rule list. -/
inductive TorchFn where
  /-- `torch.matmul` -/
  | matmul
  /-- any other torch function object -/
  | other (id : Nat)
  deriving DecidableEq, Repr

/-- Torch module classes that can appear in a module-type rule list. -/
inductive TorchModule where
  /-- `torch.nn.qat.modules.linear.Linear` -/
  | qatLinear
  /-- `QConvStaticSamePadding2d` (from the efficientnet extension) -/
  | qconvStaticSamePadding2d
  /-- any other torch module class -/
  | other (id : Nat)
  deriving DecidableEq, Repr

/-- `AcademicNLPQuantizer`: the configured extension lists are supplied at
construction time (`additional_function_type` / `additional_module_type`,
empty by default in the base class). -/
structure AcademicNLPQuantizer where
  additional_function_type : List TorchFn
  additional_module_type : List TorchModule
  deriving DecidableEq, Repr

/-- `AcademicNLPQuantizer.function_type_to_quant_input`:
`return [torch.matmul] + self.additional_function_type`. -/
def AcademicNLPQuantizer.function_type_to_quant_input
    (q : AcademicNLPQuantizer) : List TorchFn :=
  [TorchFn.matmul] ++ q.additional_function_type

/-- `AcademicNLPQuantizer.module_type_to_quant_input`:
`return (torch.nn.qat.modules.linear.Linear,) + self.additional_module_type`
(a Python tuple concatenation; tuples are embedded as lists). -/
def AcademicNLPQuantizer.module_type_to_quant_input
    (q : AcademicNLPQuantizer) : List TorchModule :=
  [TorchModule.qatLinear] ++ q.additional_module_type

/-- C1: for every `AcademicNLPQuantizer` instance, `function_type_to_quant_input`
returns the fixed base rule set `[torch.matmul]` followed by the instance's
`additional_function_type` extension, and `module_type_to_quant_input` returns
the fixed base rule set `(torch.nn.qat.modules.linear.Linear,)` followed by the
instance's `additional_module_type` extension; in particular, every element of
the configured extension appears in the returned collection. -/
theorem nlp_quantizer_rules_are_base_then_extension (q : AcademicNLPQuantizer) :
    q.function_type_to_quant_input = [TorchFn.matmul] ++ q.additional_function_type ∧
    q.module_type_to_quant_input = [TorchModule.qatLinear] ++ q.additional_module_type ∧
    (∀ f ∈ q.additional_function_type, f ∈ q.function_type_to_quant_input) ∧
    (∀ m ∈ q.additional_module_type, m ∈ q.module_type_to_quant_input) := by
  refine ⟨rfl, rfl, ?_, ?_⟩
  · intro f hf
    exact List.mem_append_right _ hf
  · intro m hm
    exact List.mem_append_right _ hm

/-- Witness for C1 at a concrete quantizer configuration. -/
theorem nlp_quantizer_rules_are_base_then_extension_witness :
    let q : AcademicNLPQuantizer := ⟨[TorchFn.other 7], [TorchModule.qconvStaticSamePadding2d]⟩
    q.function_type_to_quant_input = [TorchFn.matmul] ++ q.additional_function_type ∧
    q.module_type_to_quant_input = [TorchModule.qatLinear] ++ q.additional_module_type ∧
    (∀ f ∈ q.additional_function_type, f ∈ q.function_type_to_quant_input) ∧
    (∀ m ∈ q.additional_module_type, m ∈ q.module_type_to_quant_input) :=
  nlp_quantizer_rules_are_base_then_extension
    ⟨[TorchFn.other 7], [TorchModule.qconvStaticSamePadding2d]⟩

/-- C4: the rule accessors do not collapse duplicates: the returned list has
length `1 + |additional_function_type|`, the base entry `torch.matmul` comes
first, the extension entries follow in their given order, and when the
extension already contains `torch.matmul` that element occurs at least twice
in the result (occurrence counts add up). -/
theorem function_rules_keep_duplicates (q : AcademicNLPQuantizer) :
    q.function_type_to_quant_input.length = 1 + q.additional_function_type.length ∧
    q.function_type_to_quant_input.head? = some TorchFn.matmul ∧
    q.function_type_to_quant_input.tail = q.additional_function_type ∧
    q.function_type_to_quant_input.count TorchFn.matmul
      = 1 + q.additional_function_type.count TorchFn.matmul ∧
    (TorchFn.matmul ∈ q.additional_function_type →
      2 ≤ q.function_type_to_quant_input.count TorchFn.matmul) := by
  refine ⟨?_, rfl, rfl, ?_, ?_⟩
  · simp [AcademicNLPQuantizer.function_type_to_quant_input]
    omega
  · simp [AcademicNLPQuantizer.function_type_to_quant_input, List.count_cons]
    omega
  · intro hmem
    have h1 : 0 < q.additional_function_type.count TorchFn.matmul :=
      List.count_pos_iff.mpr hmem
    have h2 : q.function_type_to_quant_input.count TorchFn.matmul
        = 1 + q.additional_function_type.count TorchFn.matmul := by
      simp [AcademicNLPQuantizer.function_type_to_quant_input, List.count_cons]
      omega
    omega

/-- Witness for C4 at a configuration whose extension already contains
`torch.matmul`, so the duplicate is visibly kept. -/
theorem function_rules_keep_duplicates_witness :
    let q : AcademicNLPQuantizer := ⟨[TorchFn.matmul, TorchFn.other 2], []⟩
    q.function_type_to_quant_input.length = 1 + q.additional_function_type.length ∧
    q.function_type_to_quant_input.head? = some TorchFn.matmul ∧
    q.function_type_to_quant_input.tail = q.additional_function_type ∧
    q.function_type_to_quant_input.count TorchFn.matmul
      = 1 + q.additional_function_type.count TorchFn.matmul ∧
    (TorchFn.matmul ∈ q.additional_function_type →
      2 ≤ q.function_type_to_quant_input.count TorchFn.matmul) :=
  function_rules_keep_duplicates ⟨[TorchFn.matmul, TorchFn.other 2], []⟩

/-! ## Quantizer registry (C2)

`register_model_quantizer` lives in `mqbench.utils.registry`, which is not part
of the given sources; the registry operations are modelled from the spec's
registry contract, while the two decorator applications on
`AcademicNLPQuantizer` are embedded from the source file. -/

/-- Quantizer classes recorded in the registry, represented by tags. -/
inductive QuantizerClass where
  /-- the `AcademicNLPQuantizer` class -/
  | academicNLPQuantizer
  /-- any other quantizer class -/
  | other (id : Nat)
  deriving DecidableEq, Repr

/-- The process-wide registry: family name → quantizer class, in registration
order. -/
abbrev Registry := List (PyStr × QuantizerClass)

/-- A registry is well-formed when each family key appears at most once. -/
def Registry.WF (r : Registry) : Prop := (r.map Prod.fst).Nodup

/-- Modelled from the spec: `register(family_name, quantizer_class)` records or
overwrites the mapping (the body of `register_model_quantizer` in
`mqbench.utils.registry` is not among the given sources). -/
def registerModelQuantizer (r : Registry) (family : PyStr) (c : QuantizerClass) :
    Registry :=
  if r.any (fun p => p.1 == family) then
    r.map (fun p => if p.1 == family then (family, c) else p)
  else r ++ [(family, c)]

/-- Modelled from the spec: `resolve(family_name) -> quantizer_class`, failing
(`UnknownFamilyError`, embedded as `none`) when the family is absent. -/
def resolveModelQuantizer (r : Registry) (family : PyStr) : Option QuantizerClass :=
  (r.find? (fun p => p.1 == family)).map Prod.snd

/-- The decorator applications on the `AcademicNLPQuantizer` class declaration
(`@register_model_quantizer('CNN')` above `@register_model_quantizer('Transformer')`):
Python applies the innermost decorator first, so 'Transformer' is registered
first, then 'CNN', both to the same class. -/
def loadNlpQuantizerModule (r : Registry) : Registry :=
  registerModelQuantizer
    (registerModelQuantizer r (pstr "Transformer") QuantizerClass.academicNLPQuantizer)
    (pstr "CNN") QuantizerClass.academicNLPQuantizer

theorem find?_map_register (r : Registry) (k : PyStr) (c : QuantizerClass) :
    (r.map (fun p => if p.1 == k then (k, c) else p)).find? (fun p => p.1 == k)
      = if r.any (fun p => p.1 == k) then some (k, c)
        else r.find? (fun p => p.1 == k) := by
  induction r with
  | nil => rfl
  | cons p rest ih =>
    by_cases hp : p.1 = k
    · rw [List.map_cons, if_pos (show (p.1 == k) = true by simp [hp])]
      rw [List.find?_cons_of_pos (p := fun q : PyStr × QuantizerClass => q.1 == k) _ (by simp)]
      rw [if_pos (show ((p :: rest).any fun q => q.1 == k) = true by simp [hp])]
    · have hpb : ¬ ((p.1 == k) = true) := by simp [hp]
      rw [List.map_cons, if_neg hpb]
      rw [List.find?_cons_of_neg (p := fun q : PyStr × QuantizerClass => q.1 == k) _ hpb, ih]
      have hpb2 : (p.1 == k) = false := by simp [hp]
      have hany : ((p :: rest).any fun q => q.1 == k) = (rest.any fun q => q.1 == k) := by
        rw [List.any_cons, hpb2, Bool.false_or]
      rw [hany]
      by_cases hr : (rest.any fun q => q.1 == k) = true
      · rw [if_pos hr, if_pos hr]
      · rw [if_neg hr, if_neg hr]
        rw [List.find?_cons_of_neg (p := fun q : PyStr × QuantizerClass => q.1 == k) _ hpb]

theorem resolve_register_self (r : Registry) (k : PyStr) (c : QuantizerClass) :
    resolveModelQuantizer (registerModelQuantizer r k c) k = some c := by
  unfold registerModelQuantizer resolveModelQuantizer
  by_cases h : r.any (fun p => p.1 == k)
  · rw [if_pos h, find?_map_register r k c, if_pos h]
    rfl
  · rw [if_neg h, List.find?_append]
    have hr : r.find? (fun p => p.1 == k) = none := by
      rw [List.find?_eq_none]
      intro x hx hpx
      exact h (List.any_eq_true.mpr ⟨x, hx, hpx⟩)
    rw [hr]
    simp

theorem find?_map_register_ne (r : Registry) (k k' : PyStr) (c : QuantizerClass)
    (hk : k' ≠ k) :
    (r.map (fun p => if p.1 == k then (k, c) else p)).find? (fun p => p.1 == k')
      = r.find? (fun p => p.1 == k') := by
  have hkc : ¬ (((k, c).1 == k') = true) := by
    simp only [beq_iff_eq]
    exact fun h => hk h.symm
  induction r with
  | nil => rfl
  | cons p rest ih =>
    by_cases hp : p.1 = k
    · have h2 : ¬ ((p.1 == k') = true) := by
        simp only [hp, beq_iff_eq]
        exact fun h => hk h.symm
      rw [List.map_cons, if_pos (show (p.1 == k) = true by simp [hp])]
      rw [List.find?_cons_of_neg (p := fun q : PyStr × QuantizerClass => q.1 == k') _ hkc]
      rw [List.find?_cons_of_neg (p := fun q : PyStr × QuantizerClass => q.1 == k') _ h2]
      exact ih
    · rw [List.map_cons, if_neg (show ¬ ((p.1 == k) = true) by simp [hp])]
      by_cases hq : (p.1 == k') = true
      · rw [List.find?_cons_of_pos (p := fun q : PyStr × QuantizerClass => q.1 == k') _ hq]
        rw [List.find?_cons_of_pos (p := fun q : PyStr × QuantizerClass => q.1 == k') _ hq]
      · rw [List.find?_cons_of_neg (p := fun q : PyStr × QuantizerClass => q.1 == k') _ hq]
        rw [List.find?_cons_of_neg (p := fun q : PyStr × QuantizerClass => q.1 == k') _ hq]
        exact ih

theorem resolve_register_other (r : Registry) (k k' : PyStr) (c : QuantizerClass)
    (hk : k' ≠ k) :
    resolveModelQuantizer (registerModelQuantizer r k c) k'
      = resolveModelQuantizer r k' := by
  have hkc : ¬ (((k, c).1 == k') = true) := by
    simp only [beq_iff_eq]
    exact fun h => hk h.symm
  unfold registerModelQuantizer resolveModelQuantizer
  by_cases h : r.any (fun p => p.1 == k)
  · rw [if_pos h]
    congr 1
    exact find?_map_register_ne r k k' c hk
  · rw [if_neg h]
    congr 1
    rw [List.find?_append]
    have h1 : List.find? (fun q => q.1 == k') [(k, c)] = none := by
      rw [List.find?_singleton, if_neg hkc]
    rw [h1]
    simp


theorem register_keys (r : Registry) (k : PyStr) (c : QuantizerClass) :
    (registerModelQuantizer r k c).map Prod.fst
      = if r.any (fun p => p.1 == k) then r.map Prod.fst
        else r.map Prod.fst ++ [k] := by
  unfold registerModelQuantizer
  by_cases h : r.any (fun p => p.1 == k)
  · rw [if_pos h, if_pos h, List.map_map]
    apply List.map_congr_left
    intro a _
    by_cases ha : a.1 = k
    · simp [Function.comp, ha]
    · simp [Function.comp, ha]
  · rw [if_neg h, if_neg h, List.map_append]
    rfl

theorem register_preserves_WF (r : Registry) (k : PyStr) (c : QuantizerClass)
    (h : Registry.WF r) : Registry.WF (registerModelQuantizer r k c) := by
  unfold Registry.WF
  rw [register_keys]
  by_cases hc : r.any (fun p => p.1 == k)
  · rw [if_pos hc]
    exact h
  · rw [if_neg hc, List.nodup_append]
    refine ⟨h, List.nodup_singleton k, ?_⟩
    intro a ha hk2
    rw [List.mem_singleton] at hk2
    subst hk2
    obtain ⟨p, hp, hpk⟩ := List.mem_map.mp ha
    exact hc (List.any_eq_true.mpr ⟨p, hp, by simp [hpk]⟩)

/-- C2: after the registration phase at module load, both 'CNN' and
'Transformer' resolve to the `AcademicNLPQuantizer` class, the registry still
maps each registered family key to exactly one quantizer class
(well-formedness is preserved), and registering any family key again
overwrites the earlier mapping — the later registration wins. -/
theorem nlp_registration_unique_and_last_wins (r0 : Registry) (h : Registry.WF r0) :
    resolveModelQuantizer (loadNlpQuantizerModule r0) (pstr "CNN")
      = some QuantizerClass.academicNLPQuantizer ∧
    resolveModelQuantizer (loadNlpQuantizerModule r0) (pstr "Transformer")
      = some QuantizerClass.academicNLPQuantizer ∧
    Registry.WF (loadNlpQuantizerModule r0) ∧
    (∀ k c, resolveModelQuantizer (registerModelQuantizer (loadNlpQuantizerModule r0) k c) k
        = some c) := by
  have hne : pstr "Transformer" ≠ pstr "CNN" := by decide
  refine ⟨resolve_register_self _ _ _, ?_, ?_, fun k c => resolve_register_self _ _ _⟩
  · rw [loadNlpQuantizerModule, resolve_register_other _ _ _ _ hne]
    exact resolve_register_self _ _ _
  · exact register_preserves_WF _ _ _ (register_preserves_WF _ _ _ h)

/-- Witness for C2: instantiation at the empty initial registry. -/
theorem nlp_registration_unique_and_last_wins_witness :
    Registry.WF ([] : Registry) ∧
    (resolveModelQuantizer (loadNlpQuantizerModule []) (pstr "CNN")
        = some QuantizerClass.academicNLPQuantizer ∧
      resolveModelQuantizer (loadNlpQuantizerModule []) (pstr "Transformer")
        = some QuantizerClass.academicNLPQuantizer ∧
      Registry.WF (loadNlpQuantizerModule []) ∧
      (∀ k c, resolveModelQuantizer (registerModelQuantizer (loadNlpQuantizerModule []) k c) k
          = some c)) :=
  ⟨by simp [Registry.WF], nlp_registration_unique_and_last_wins [] (by simp [Registry.WF])⟩

/-! ## Mode controller and the driver's resume path (C3)

The mode-transition functions `enable_calibration` / `enable_quantization`
live in `mqbench.utils.state`, which is not among the given sources; they are
modelled from spec §4.4.  The driver's branch structure around them is
embedded from `main_worker` (src/application/imagenet_example/main_a.py,
lines 268–302). -/

/-- The three execution modes of a fake-quant node. -/
inductive Mode where
  | disabled
  | calibrating
  | quantized
  deriving DecidableEq, Repr

/-- The statistics-relevant state of the fake-quant nodes of a prepared model:
current mode and number of observed calibration batches. -/
structure FakeQuantState where
  mode : Mode
  observedBatches : Nat
  deriving DecidableEq, Repr

/-- A freshly prepared model: initial mode is disabled, nothing observed. -/
def FakeQuantState.initial : FakeQuantState := ⟨Mode.disabled, 0⟩

/-- The mode-controller operations the driver can issue. -/
inductive ModeEvent where
  /-- `enable_calibration(model)` -/
  | enableCalibration
  /-- `calibrate(cali_loader, model, args)`: a forward pass over `n` batches,
  each observed by nodes that are in calibrating mode -/
  | calibrateLoop (n : Nat)
  /-- `enable_quantization(model)` -/
  | enableQuantization
  deriving DecidableEq, Repr

/-- Modelled from the spec (§4.4): `enable_calibration` switches every
fake-quant node to calibrating; a calibration forward pass accumulates one
observation per batch into calibrating nodes; `enable_quantization` switches
every node to quantized and, per the spec's open question, proceeds even when
zero batches were observed (degenerate/default statistics) — it is a total
transition that never fails. -/
def applyModeEvent (s : FakeQuantState) : ModeEvent → FakeQuantState
  | ModeEvent.enableCalibration => { s with mode := Mode.calibrating }
  | ModeEvent.calibrateLoop n =>
      if s.mode = Mode.calibrating then
        { s with observedBatches := s.observedBatches + n }
      else s
  | ModeEvent.enableQuantization => { s with mode := Mode.quantized }

/-- The mode-controller events issued by `main_worker` between model creation
and the deploy/evaluate stage: `if args.resume: <load checkpoint> elif
args.quant: enable_calibration(model); calibrate(cali_loader, model, args)`,
followed by `if args.quant: enable_quantization(model)`. -/
def mainWorkerModeEvents (resume quant : Bool) (caliBatches : Nat) : List ModeEvent :=
  (if resume then []
   else if quant then [ModeEvent.enableCalibration, ModeEvent.calibrateLoop caliBatches]
   else [])
  ++ (if quant then [ModeEvent.enableQuantization] else [])

/-- C3: when `args.resume` is set, the `enable_calibration` + `calibrate`
branch is skipped, so no calibration batch is ever observed; the driver still
calls `enable_quantization`, which succeeds and leaves the model quantized
with zero observed batches (degenerate/default statistics) rather than
failing. -/
theorem resume_skips_calibration_and_quantization_succeeds (caliBatches : Nat) :
    mainWorkerModeEvents true true caliBatches = [ModeEvent.enableQuantization] ∧
    ModeEvent.enableCalibration ∉ mainWorkerModeEvents true true caliBatches ∧
    (mainWorkerModeEvents true true caliBatches).foldl applyModeEvent
        FakeQuantState.initial
      = { mode := Mode.quantized, observedBatches := 0 } := by
  refine ⟨rfl, ?_, rfl⟩
  intro hmem
  simp [mainWorkerModeEvents] at hmem


/-! ## Deploy and evaluate paths of the driver (C5, C6, C7)

Embedding of the tail of `main_worker`
(src/application/imagenet_example/main_a.py, lines 304–362) as a trace of the
externally visible actions.  The rbcompiler API calls are kept symbolic: a
serialized graph is represented by the call that produced it. -/

/-- Python's `str.replace(pat, rep)`: replaces non-overlapping occurrences
left to right (the driver only uses it with a nonempty pattern). -/
def pyReplace (s pat rep : PyStr) : PyStr :=
  match s with
  | [] => []
  | c :: rest =>
    if h : pat ≠ [] ∧ pat.isPrefixOf (c :: rest) then
      rep ++ pyReplace ((c :: rest).drop pat.length) pat rep
    else
      c :: pyReplace rest pat rep
termination_by s.length
decreasing_by
  · have hp : 0 < pat.length := List.length_pos.mpr h.1
    simp only [List.length_drop, List.length_cons]
    omega
  · simp only [List.length_cons]
    omega

/-- No occurrence of `pat` starts strictly before the final `pat`-tail of
`s ++ pat`. -/
abbrev NoEarlyOccur (s pat : PyStr) : Prop :=
  ∀ i < s.length, ¬ pat.isPrefixOf ((s ++ pat).drop i)

theorem pyReplace_of_unique_tail (s pat rep : PyStr) (hp : pat ≠ [])
    (h : NoEarlyOccur s pat) :
    pyReplace (s ++ pat) pat rep = s ++ rep := by
  induction s with
  | nil =>
    rw [List.nil_append, List.nil_append]
    cases pat with
    | nil => exact absurd rfl hp
    | cons c cs =>
      rw [pyReplace]
      rw [dif_pos ⟨hp, by simp⟩]
      rw [List.drop_length, pyReplace, List.append_nil]
  | cons c s' ih =>
    have h0' := h 0 (by simp)
    rw [List.drop_zero] at h0'
    rw [List.cons_append]
    rw [List.cons_append] at h0'
    cases hsp : s' ++ pat with
    | nil =>
      rcases List.append_eq_nil.mp hsp with ⟨-, hpn⟩
      exact absurd hpn hp
    | cons d ds =>
      rw [hsp] at h0'
      rw [pyReplace]
      rw [dif_neg (fun hc => h0' hc.2)]
      rw [← hsp]
      rw [ih (fun i hi => by
        have := h (i + 1) (by simpa using Nat.succ_lt_succ hi)
        rwa [List.cons_append, List.drop_succ_cons] at this)]
      rfl

/-- The driver's model object, tracking the state the driver mutates:
train/eval mode (`model.train()` / `model.eval()`) and device placement
(`model.to(torch.device('cpu'))`). -/
structure PModel where
  training : Bool
  onCpu : Bool
  deriving DecidableEq, Repr

/-- `model.eval()`: puts the module in evaluation mode (and returns it). -/
def PModel.evalMode (m : PModel) : PModel := { m with training := false }

/-- `model.to(torch.device('cpu'))`. -/
def PModel.toCpu (m : PModel) : PModel := { m with onCpu := true }

/-- The clip-range data serialized to JSON by `rb_api.gen_sg_from_pytorch`
for a given model, kept symbolic. -/
inductive ClipJson where
  | ofModel (m : PModel)
  deriving DecidableEq, Repr

/-- The backend quantization-options record built by the deploy path:
`qconfig = {'quant_ops': {'DepthWiseConv2D': {'per_channel': False}}}`. -/
structure QuantOpsConfig where
  opName : PyStr
  perChannel : Bool
  deriving DecidableEq, Repr

def rbQConfig : QuantOpsConfig := ⟨pstr "DepthWiseConv2D", false⟩

/-- Serialized graphs produced by the rbcompiler API, kept symbolic: a graph
is represented by the call that produced it. -/
inductive SG where
  /-- `rb_api.gen_sg_from_pytorch(model, dumpy_input, clip_range_file=..., ir_graph=...)` -/
  | fromPytorch (m : PModel) (clipRangeFile : PyStr) (irGraph : PyStr)
  /-- `rb_api.gen_quant_sg_from_clip_ranges(sg, clip_ranges, qconfig)` -/
  | quantFromClipRanges (sg : SG) (ranges : ClipJson) (qcfg : QuantOpsConfig)
  deriving DecidableEq, Repr

/-- Contents written to deploy artifact files. -/
inductive FileContent where
  | sgData (sg : SG)
  | jsonData (c : ClipJson)
  deriving DecidableEq, Repr

/-- The externally visible actions of the driver tail. -/
inductive DriverEvent where
  /-- `convert_merge_bn(m)`: batch-norm folding applied to `m` -/
  | mergeBn (m : PModel)
  /-- `model.to(torch.device('cpu'))` -/
  | toCpuEvent
  /-- a completed write of `content` at `path` -/
  | writeFile (path : PyStr) (content : FileContent)
  /-- `open(path, 'r')` followed by `json.loads(f.read())` -/
  | readFile (path : PyStr)
  /-- `validate(val_loader, model, criterion, args)` on the given model -/
  | validateRun (m : PModel)
  /-- the training epoch loop -/
  | trainLoop
  deriving DecidableEq, Repr

/-- `os.path.join(a, b)` for a relative second component. -/
def osPathJoin (a b : PyStr) : PyStr := a ++ pstr "/" ++ b

/-- `export_sg_file = os.path.join(output_dir, '{}.sg'.format(args.arch))`
with `output_dir = args.arch`. -/
def exportSgFile (arch : PyStr) : PyStr := osPathJoin arch (arch ++ pstr ".sg")

/-- `clip_range_file = os.path.join(output_dir, '{}_act_clip.json'.format(args.arch))`. -/
def clipRangeFilePath (arch : PyStr) : PyStr :=
  osPathJoin arch (arch ++ pstr "_act_clip.json")

/-- The deploy branch of `main_worker` (`args.quant and args.deploy`), as the
sequence of externally visible actions: fold batch-norm on `model.eval()`,
move to CPU, generate the serialized graph (which writes the clip-range JSON),
save it, read the clip ranges back, derive the 8-bit variant from graph +
clip ranges + `qconfig`, and save it under the `.sg → _8bit.sg` renamed path. -/
def deployEvents (arch : PyStr) (model : PModel) : List DriverEvent :=
  let m1 := model.evalMode
  let m2 := m1.toCpu
  let sgFile := exportSgFile arch
  let clipFile := clipRangeFilePath arch
  let sg := SG.fromPytorch m2.evalMode clipFile (pstr "graph.log")
  let qsg := SG.quantFromClipRanges sg (ClipJson.ofModel m2.evalMode) rbQConfig
  [ DriverEvent.mergeBn m1,
    DriverEvent.toCpuEvent,
    DriverEvent.writeFile clipFile (FileContent.jsonData (ClipJson.ofModel m2.evalMode)),
    DriverEvent.writeFile sgFile (FileContent.sgData sg),
    DriverEvent.readFile clipFile,
    DriverEvent.writeFile (pyReplace sgFile (pstr ".sg") (pstr "_8bit.sg"))
      (FileContent.sgData qsg) ]

/-- The tail of `main_worker` after `enable_quantization` (lines 304–362):
`if args.quant and args.deploy: <deploy branch>; return`, then
`if args.evaluate: (convert_merge_bn(model.eval()) when quantized);
validate(...); return`, and otherwise the training epoch loop. -/
def driverTail (quant deploy evaluate : Bool) (arch : PyStr) (model : PModel) :
    List DriverEvent :=
  if quant && deploy then deployEvents arch model
  else if evaluate then
    (if quant then [DriverEvent.mergeBn model.evalMode] else [])
      ++ [DriverEvent.validateRun (if quant then model.evalMode else model)]
  else [DriverEvent.trainLoop]

/-- C5: batch-norm folding is never applied to a calibrating/training-mode
model: in every driver code path that invokes `convert_merge_bn` (the deploy
path and the evaluate path), the argument is `model.eval()` — a model in
evaluation mode. -/
theorem merge_bn_only_on_eval_model (quant deploy evaluate : Bool) (arch : PyStr)
    (model : PModel) :
    ∀ m, DriverEvent.mergeBn m ∈ driverTail quant deploy evaluate arch model →
      m.training = false := by
  intro m hm
  cases quant with
  | false =>
    cases evaluate with
    | false => simp [driverTail] at hm
    | true => simp [driverTail] at hm
  | true =>
    cases deploy with
    | true =>
      simp [driverTail, deployEvents] at hm
      rw [hm]
      rfl
    | false =>
      cases evaluate with
      | false => simp [driverTail] at hm
      | true =>
        simp [driverTail] at hm
        rw [hm]
        rfl

/-- Witness for C5: the deploy path for arch 'resnet18' starting from a
training-mode model folds batch-norm on the eval-mode version of the model. -/
theorem merge_bn_only_on_eval_model_witness :
    ((⟨true, false⟩ : PModel).evalMode).training = false :=
  merge_bn_only_on_eval_model true true false (pstr "resnet18") ⟨true, false⟩
    ((⟨true, false⟩ : PModel).evalMode)
    (by simp [driverTail, deployEvents])

theorem exportSgFile_eq (arch : PyStr) :
    exportSgFile arch = (arch ++ pstr "/" ++ arch) ++ pstr ".sg" := by
  simp [exportSgFile, osPathJoin, List.append_assoc]

theorem qsgFile_eq (arch : PyStr)
    (h : NoEarlyOccur (arch ++ pstr "/" ++ arch) (pstr ".sg")) :
    pyReplace (exportSgFile arch) (pstr ".sg") (pstr "_8bit.sg")
      = arch ++ pstr "/" ++ (arch ++ pstr "_8bit.sg") := by
  rw [exportSgFile_eq]
  rw [pyReplace_of_unique_tail _ _ _ (by decide) h]
  simp [List.append_assoc]

/-- C6: with quantization and deploy requested, the export writes a serialized
graph file and a JSON-format clip-range file into the output directory
(`output_dir = args.arch`), named '<arch>.sg' and '<arch>_act_clip.json',
reads the clip ranges back from the JSON file, and writes a second serialized
graph named '<arch>_8bit.sg' whose content is the fully quantized variant
derived from the saved graph, the read-back clip ranges and the backend
quantization-options record. -/
theorem deploy_export_artifacts (arch : PyStr) (model : PModel)
    (h : NoEarlyOccur (arch ++ pstr "/" ++ arch) (pstr ".sg")) :
    ∃ sg ranges,
      DriverEvent.writeFile (arch ++ pstr "/" ++ (arch ++ pstr ".sg"))
          (FileContent.sgData sg) ∈ deployEvents arch model ∧
      DriverEvent.writeFile (arch ++ pstr "/" ++ (arch ++ pstr "_act_clip.json"))
          (FileContent.jsonData ranges) ∈ deployEvents arch model ∧
      DriverEvent.readFile (arch ++ pstr "/" ++ (arch ++ pstr "_act_clip.json"))
          ∈ deployEvents arch model ∧
      DriverEvent.writeFile (arch ++ pstr "/" ++ (arch ++ pstr "_8bit.sg"))
          (FileContent.sgData (SG.quantFromClipRanges sg ranges rbQConfig))
          ∈ deployEvents arch model := by
  refine ⟨SG.fromPytorch model.evalMode.toCpu.evalMode (clipRangeFilePath arch)
            (pstr "graph.log"),
          ClipJson.ofModel model.evalMode.toCpu.evalMode, ?_, ?_, ?_, ?_⟩
  · simp [deployEvents, exportSgFile, osPathJoin]
  · simp [deployEvents, clipRangeFilePath, osPathJoin]
  · simp [deployEvents, clipRangeFilePath, osPathJoin]
  · have hq := qsgFile_eq arch h
    simp [deployEvents, hq]

/-- Witness for C6: instantiation at arch 'resnet18' and a training-mode model. -/
theorem deploy_export_artifacts_witness :
    NoEarlyOccur (pstr "resnet18" ++ pstr "/" ++ pstr "resnet18") (pstr ".sg") ∧
    (∃ sg ranges,
      DriverEvent.writeFile (pstr "resnet18" ++ pstr "/" ++ (pstr "resnet18" ++ pstr ".sg"))
          (FileContent.sgData sg) ∈ deployEvents (pstr "resnet18") ⟨true, false⟩ ∧
      DriverEvent.writeFile
          (pstr "resnet18" ++ pstr "/" ++ (pstr "resnet18" ++ pstr "_act_clip.json"))
          (FileContent.jsonData ranges) ∈ deployEvents (pstr "resnet18") ⟨true, false⟩ ∧
      DriverEvent.readFile
          (pstr "resnet18" ++ pstr "/" ++ (pstr "resnet18" ++ pstr "_act_clip.json"))
          ∈ deployEvents (pstr "resnet18") ⟨true, false⟩ ∧
      DriverEvent.writeFile
          (pstr "resnet18" ++ pstr "/" ++ (pstr "resnet18" ++ pstr "_8bit.sg"))
          (FileContent.sgData (SG.quantFromClipRanges sg ranges rbQConfig))
          ∈ deployEvents (pstr "resnet18") ⟨true, false⟩) :=
  ⟨by decide, deploy_export_artifacts (pstr "resnet18") ⟨true, false⟩ (by decide)⟩

/-- C7 counterexample: in the deploy path for arch 'resnet18', the serialized
graph is written directly at its final artifact path 'resnet18/resnet18.sg'
in a single step — not to a temporary output path that is later confirmed or
renamed (the trace has no rename/commit action at all). -/
theorem export_temp_path_counterexample :
    DriverEvent.writeFile (pstr "resnet18/resnet18.sg")
        (FileContent.sgData (SG.fromPytorch ⟨false, true⟩
          (pstr "resnet18/resnet18_act_clip.json") (pstr "graph.log")))
      ∈ deployEvents (pstr "resnet18") ⟨true, false⟩ := by
  have h4 : exportSgFile (pstr "resnet18") = pstr "resnet18/resnet18.sg" := by decide
  have h5 : clipRangeFilePath (pstr "resnet18")
      = pstr "resnet18/resnet18_act_clip.json" := by decide
  simp [deployEvents, h4, h5, PModel.evalMode, PModel.toCpu]

/-- C7 amended: serialized outputs are written directly at their final output
paths — every write event in the deploy trace targets one of the three final
artifact paths, no temporary output path is used, so a failure partway may
leave a partial artifact at a final path. -/
theorem export_writes_only_final_paths (arch : PyStr) (model : PModel)
    (h : NoEarlyOccur (arch ++ pstr "/" ++ arch) (pstr ".sg")) :
    ∀ p c, DriverEvent.writeFile p c ∈ deployEvents arch model →
      p = arch ++ pstr "/" ++ (arch ++ pstr ".sg") ∨
      p = arch ++ pstr "/" ++ (arch ++ pstr "_act_clip.json") ∨
      p = arch ++ pstr "/" ++ (arch ++ pstr "_8bit.sg") := by
  intro p c hm
  simp [deployEvents, exportSgFile, clipRangeFilePath, osPathJoin, List.append_assoc] at hm
  have hq : pyReplace (arch ++ (pstr "/" ++ (arch ++ pstr ".sg")))
      (pstr ".sg") (pstr "_8bit.sg")
      = arch ++ (pstr "/" ++ (arch ++ pstr "_8bit.sg")) := by
    have h2 := qsgFile_eq arch h
    rw [exportSgFile_eq] at h2
    simpa [List.append_assoc] using h2
  rcases hm with ⟨hp, -⟩ | ⟨hp, -⟩ | ⟨hp, -⟩
  · right
    left
    simp [hp, List.append_assoc]
  · left
    simp [hp, List.append_assoc]
  · right
    right
    rw [hp, hq]
    simp [List.append_assoc]

/-- Witness for the amended C7 at arch 'resnet18'. -/
theorem export_writes_only_final_paths_witness :
    pstr "resnet18/resnet18.sg"
        = pstr "resnet18" ++ pstr "/" ++ (pstr "resnet18" ++ pstr ".sg") ∨
    pstr "resnet18/resnet18.sg"
        = pstr "resnet18" ++ pstr "/" ++ (pstr "resnet18" ++ pstr "_act_clip.json") ∨
    pstr "resnet18/resnet18.sg"
        = pstr "resnet18" ++ pstr "/" ++ (pstr "resnet18" ++ pstr "_8bit.sg") :=
  export_writes_only_final_paths (pstr "resnet18") ⟨true, false⟩ (by decide)
    (pstr "resnet18/resnet18.sg")
    (FileContent.sgData (SG.fromPytorch ⟨false, true⟩
      (pstr "resnet18/resnet18_act_clip.json") (pstr "graph.log")))
    (by
      have h4 : exportSgFile (pstr "resnet18") = pstr "resnet18/resnet18.sg" := by decide
      have h5 : clipRangeFilePath (pstr "resnet18")
          = pstr "resnet18/resnet18_act_clip.json" := by decide
      simp [deployEvents, h4, h5, PModel.evalMode, PModel.toCpu])

/-! ## Checkpoint state-dict key stripping on resume (C8)

Embedding of the resume branch of `main_worker` (main_a.py, lines 283–289).
Python dicts are association lists in insertion order with unique keys:
`d[k] = v` updates in place when the key exists and appends otherwise;
`d.pop(k)` removes the key, raising `KeyError` (embedded as `none`) if
absent. -/

def dictKeys {V : Type} (d : List (PyStr × V)) : List PyStr := d.map Prod.fst

def dictLookup {V : Type} (d : List (PyStr × V)) (k : PyStr) : Option V :=
  (d.find? (fun p => p.1 == k)).map Prod.snd

/-- `d[k] = v`. -/
def dictSet {V : Type} (d : List (PyStr × V)) (k : PyStr) (v : V) :
    List (PyStr × V) :=
  if d.any (fun p => p.1 == k) then
    d.map (fun p => if p.1 == k then (k, v) else p)
  else d ++ [(k, v)]

def dictErase {V : Type} (d : List (PyStr × V)) (k : PyStr) : List (PyStr × V) :=
  d.eraseP (fun p => p.1 == k)

/-- `v = d.pop(k)`: the popped value and the remaining dict. -/
def dictPop {V : Type} (d : List (PyStr × V)) (k : PyStr) :
    Option (V × List (PyStr × V)) :=
  match dictLookup d k with
  | none => none
  | some v => some (v, dictErase d k)

/-- One iteration of the strip loop: `state_dict[k[7:]] = state_dict.pop(k)`. -/
def stripStep {V : Type} (d : List (PyStr × V)) (k : PyStr) :
    Option (List (PyStr × V)) :=
  match dictPop d k with
  | none => none
  | some (v, d') => some (dictSet d' (k.drop 7) v)

def stripLoop {V : Type} (d : List (PyStr × V)) :
    List PyStr → Option (List (PyStr × V))
  | [] => some d
  | k :: ks =>
    match stripStep d k with
    | none => none
    | some d' => stripLoop d' ks

/-- `for k in list(state_dict.keys()): state_dict[k[7:]] = state_dict.pop(k)`:
the key list is materialized once, up front. -/
def stripModulePrefix {V : Type} (d : List (PyStr × V)) :
    Option (List (PyStr × V)) :=
  stripLoop d (dictKeys d)

/-- The guard
`'module.' in list(state_dict.keys())[0] and 'module.' not in list(model_dict.keys())[0]`. -/
def shouldStrip {V : Type} (sd md : List (PyStr × V)) : Bool :=
  match dictKeys sd, dictKeys md with
  | k0 :: _, m0 :: _ =>
      containsSub k0 (pstr "module.") && !(containsSub m0 (pstr "module."))
  | _, _ => false

/-- The resume-path state-dict fix-up: strip when the guard holds, else leave
the dict unchanged; `list(...)[0]` on an empty dict raises (embedded as
`none`). -/
def resumeStateDict {V : Type} (sd md : List (PyStr × V)) :
    Option (List (PyStr × V)) :=
  match dictKeys sd, dictKeys md with
  | _ :: _, _ :: _ =>
      if shouldStrip sd md then stripModulePrefix sd else some sd
  | _, _ => none


theorem mem_dictKeys {V : Type} {d : List (PyStr × V)} {k : PyStr} :
    k ∈ dictKeys d ↔ ∃ p ∈ d, p.1 = k :=
  List.mem_map

theorem dictKeys_append {V : Type} (a b : List (PyStr × V)) :
    dictKeys (a ++ b) = dictKeys a ++ dictKeys b :=
  List.map_append _ _ _

theorem stripLoop_spec {V : Type} (suf : List (PyStr × V)) :
    ∀ acc : List (PyStr × V),
      (∀ k ∈ dictKeys suf, k ∉ dictKeys acc) →
      (∀ k ∈ dictKeys suf, k.drop 7 ∉ dictKeys suf) →
      (∀ k ∈ dictKeys suf, k.drop 7 ∉ dictKeys acc) →
      ((dictKeys suf).map (fun k => k.drop 7)).Nodup →
      stripLoop (suf ++ acc) (dictKeys suf)
        = some (acc ++ suf.map (fun p => (p.1.drop 7, p.2))) := by
  induction suf with
  | nil =>
    intro acc _ _ _ _
    show stripLoop ([] ++ acc) [] = some (acc ++ [])
    rw [List.nil_append, List.append_nil]
    rfl
  | cons kv suf' ih =>
    intro acc h2 h3 h4 h5
    obtain ⟨k, v⟩ := kv
    have hkeys : dictKeys ((k, v) :: suf') = k :: dictKeys suf' := rfl
    rw [hkeys] at h2 h3 h4 h5
    have hk7suf : k.drop 7 ∉ k :: dictKeys suf' := h3 k (by simp)
    have hk7acc : k.drop 7 ∉ dictKeys acc := h4 k (by simp)
    have hpop : dictPop ((k, v) :: (suf' ++ acc)) k = some (v, suf' ++ acc) := by
      simp [dictPop, dictLookup, dictErase]
    have hany : ((suf' ++ acc).any fun p => p.1 == k.drop 7) = false := by
      rw [List.any_eq_false]
      intro p hp hb
      have hpk : p.1 = k.drop 7 := by simpa using hb
      rcases List.mem_append.mp hp with hmem | hmem
      · exact hk7suf (List.mem_cons_of_mem _ (mem_dictKeys.mpr ⟨p, hmem, hpk⟩))
      · exact hk7acc (mem_dictKeys.mpr ⟨p, hmem, hpk⟩)
    have hset : dictSet (suf' ++ acc) (k.drop 7) v
        = suf' ++ (acc ++ [(k.drop 7, v)]) := by
      unfold dictSet
      rw [hany]
      simp [List.append_assoc]
    have h2' : ∀ k' ∈ dictKeys suf', k' ∉ dictKeys (acc ++ [(k.drop 7, v)]) := by
      intro k' hk' hmem
      rw [dictKeys_append] at hmem
      rcases List.mem_append.mp hmem with hmem | hmem
      · exact h2 k' (List.mem_cons_of_mem _ hk') hmem
      · have : k' = k.drop 7 := by simpa [dictKeys] using hmem
        subst this
        exact hk7suf (List.mem_cons_of_mem _ hk')
    have h3' : ∀ k' ∈ dictKeys suf', k'.drop 7 ∉ dictKeys suf' := by
      intro k' hk' hmem
      exact h3 k' (List.mem_cons_of_mem _ hk') (List.mem_cons_of_mem _ hmem)
    have h4' : ∀ k' ∈ dictKeys suf', k'.drop 7 ∉ dictKeys (acc ++ [(k.drop 7, v)]) := by
      intro k' hk' hmem
      rw [dictKeys_append] at hmem
      rcases List.mem_append.mp hmem with hmem | hmem
      · exact h4 k' (List.mem_cons_of_mem _ hk') hmem
      · have heq : k'.drop 7 = k.drop 7 := by simpa [dictKeys] using hmem
        rw [List.map_cons, List.nodup_cons] at h5
        exact h5.1 (heq ▸ List.mem_map_of_mem _ hk')
    have h5' : ((dictKeys suf').map (fun k => k.drop 7)).Nodup := by
      rw [List.map_cons, List.nodup_cons] at h5
      exact h5.2
    have hstep : stripStep ((k, v) :: (suf' ++ acc)) k
        = some (suf' ++ (acc ++ [(k.drop 7, v)])) := by
      unfold stripStep
      rw [hpop]
      show some (dictSet (suf' ++ acc) (k.drop 7) v) = _
      rw [hset]
    rw [hkeys, List.cons_append]
    show stripLoop ((k, v) :: (suf' ++ acc)) (k :: dictKeys suf') = _
    simp only [stripLoop]
    rw [hstep]
    show stripLoop (suf' ++ (acc ++ [(k.drop 7, v)])) (dictKeys suf') = _
    rw [ih (acc ++ [(k.drop 7, v)]) h2' h3' h4' h5']
    simp [List.append_assoc]

theorem stripModulePrefix_spec {V : Type} (sd : List (PyStr × V))
    (h3 : ∀ k ∈ dictKeys sd, k.drop 7 ∉ dictKeys sd)
    (h5 : ((dictKeys sd).map (fun k => k.drop 7)).Nodup) :
    stripModulePrefix sd = some (sd.map (fun p => (p.1.drop 7, p.2))) := by
  have h := stripLoop_spec sd []
    (by intro k _ hk; simp [dictKeys] at hk) h3
    (by intro k _ hk; simp [dictKeys] at hk) h5
  simpa [stripModulePrefix] using h

/-- C8: when resuming from a checkpoint, if the first key of the checkpoint's
state dict contains the substring 'module.' and the first key of the current
model's state dict does not, then every key of the checkpoint state dict has
its first seven characters removed (its value following it, entries in order)
before the state dict is loaded; if the condition does not hold, the dict is
loaded unchanged.  The side conditions say that no stripped key collides with
a still-present key — satisfied by any genuine distributed-wrapper checkpoint,
where every key carries the 'module.' prefix exactly once. -/
theorem resume_strips_module_prefix {V : Type} (sd md : List (PyStr × V))
    (hsd : sd ≠ []) (hmd : md ≠ [])
    (h3 : ∀ k ∈ dictKeys sd, k.drop 7 ∉ dictKeys sd)
    (h5 : ((dictKeys sd).map (fun k => k.drop 7)).Nodup) :
    resumeStateDict sd md
      = some (if shouldStrip sd md then sd.map (fun p => (p.1.drop 7, p.2))
              else sd) := by
  obtain ⟨p0, sd', rfl⟩ := List.exists_cons_of_ne_nil hsd
  obtain ⟨q0, md', rfl⟩ := List.exists_cons_of_ne_nil hmd
  show (if shouldStrip (p0 :: sd') (q0 :: md') then stripModulePrefix (p0 :: sd')
        else some (p0 :: sd')) = _
  by_cases hc : shouldStrip (p0 :: sd') (q0 :: md') = true
  · rw [if_pos hc, if_pos hc, stripModulePrefix_spec _ h3 h5]
  · rw [if_neg hc, if_neg hc]

/-- Witness for C8: a two-entry DataParallel-style checkpoint against an
unwrapped model; the guard holds and both keys are stripped. -/
theorem resume_strips_module_prefix_witness :
    resumeStateDict
        [(pstr "module.conv.weight", (1 : Nat)), (pstr "module.bn.bias", 2)]
        [(pstr "conv.weight", (1 : Nat))]
      = some (if shouldStrip
                  [(pstr "module.conv.weight", (1 : Nat)), (pstr "module.bn.bias", 2)]
                  [(pstr "conv.weight", (1 : Nat))]
              then [(pstr "module.conv.weight", (1 : Nat)),
                    (pstr "module.bn.bias", 2)].map (fun p => (p.1.drop 7, p.2))
              else [(pstr "module.conv.weight", (1 : Nat)),
                    (pstr "module.bn.bias", 2)]) :=
  resume_strips_module_prefix _ _ (by decide) (by decide) (by decide) (by decide)

/-! ## save_checkpoint (C9)

Embedding of `save_checkpoint` (main_a.py, lines 494–507).  Checkpoint values
are represented by `PyVal`; the float formatting `'{:.2f}'.format(cur_acc)`
has no exact embedding, so the formatter is a parameter of the definition. -/

/-- Python values stored in the checkpoint mapping. -/
inductive PyVal where
  /-- a Python str -/
  | pyStr (s : PyStr)
  /-- a Python int -/
  | pyInt (n : Int)
  /-- a Python float or 0-dim tensor, embedded as a rational -/
  | pyFloat (q : ℚ)
  /-- a nested mapping such as a model or optimizer state dict -/
  | pyDict (entries : List (PyStr × PyVal))

/-- Python's decimal rendering of an int, `'{}'.format(i)`. -/
def pyIntRepr (i : Int) : PyStr :=
  if i < 0 then '-' :: Nat.toDigits 10 i.natAbs else Nat.toDigits 10 i.toNat

/-- Filesystem actions performed by `save_checkpoint`. -/
inductive FsEvent where
  /-- `if not os.path.isdir(model_name): os.mkdir(model_name)` -/
  | ensureDir (dir : PyStr)
  /-- `torch.save(state, filename)` -/
  | torchSave (filename : PyStr) (state : List (PyStr × PyVal))
  /-- `shutil.copyfile(src, dst)` -/
  | copyFile (src dst : PyStr)

/-- `save_checkpoint(state, is_best)`: returns the state mapping as the caller
sees it afterwards, together with the filesystem actions; `none` when Python
would raise (missing 'arch'/'cur_acc'/'epoch' entries or ill-typed ones). -/
def save_checkpoint (state : List (PyStr × PyVal)) (is_best : Bool)
    (fmtAcc : PyVal → PyStr) :
    Option (List (PyStr × PyVal) × List FsEvent) :=
  match dictLookup state (pstr "arch") with
  | some (PyVal.pyStr model_name) =>
    match dictPop state (pstr "cur_acc") with
    | none => none
    | some (cur_acc, state') =>
      match dictLookup state' (pstr "epoch") with
      | some (PyVal.pyInt epoch) =>
        let cur_epoch := epoch - 1
        let filename := osPathJoin model_name
          (model_name ++ pstr "_acc_" ++ fmtAcc cur_acc
            ++ pstr "_epoch_" ++ pyIntRepr cur_epoch ++ pstr ".pth.tar")
        some (state',
          [FsEvent.ensureDir model_name, FsEvent.torchSave filename state']
          ++ (if is_best then
                [FsEvent.copyFile filename
                  (osPathJoin model_name (pstr "model_best.pth.tar"))]
              else []))
      | _ => none
  | _ => none

theorem dictLookup_eq_none {V : Type} {d : List (PyStr × V)} {k : PyStr}
    (h : k ∉ dictKeys d) : dictLookup d k = none := by
  unfold dictLookup
  have : d.find? (fun p => p.1 == k) = none := by
    rw [List.find?_eq_none]
    intro p hp hb
    exact h (mem_dictKeys.mpr ⟨p, hp, by simpa using hb⟩)
  rw [this]
  rfl

theorem dictLookup_erase_self {V : Type} (d : List (PyStr × V)) (k : PyStr)
    (hnd : (dictKeys d).Nodup) : dictLookup (dictErase d k) k = none := by
  induction d with
  | nil => rfl
  | cons p rest ih =>
    rw [show dictKeys (p :: rest) = p.1 :: dictKeys rest from rfl,
        List.nodup_cons] at hnd
    by_cases hp : (p.1 == k) = true
    · have hpk : p.1 = k := by simpa using hp
      unfold dictErase
      rw [List.eraseP_cons_of_pos (p := fun q : PyStr × V => q.1 == k) hp]
      exact dictLookup_eq_none (fun hmem => hnd.1 (hpk ▸ hmem))
    · unfold dictErase
      rw [List.eraseP_cons_of_neg (p := fun q : PyStr × V => q.1 == k) (by simpa using hp)]
      unfold dictLookup
      rw [List.find?_cons_of_neg (p := fun q : PyStr × V => q.1 == k) _ hp]
      exact ih hnd.2

theorem dictLookup_erase_ne {V : Type} (d : List (PyStr × V)) (k k' : PyStr)
    (hne : k' ≠ k) : dictLookup (dictErase d k) k' = dictLookup d k' := by
  induction d with
  | nil => rfl
  | cons p rest ih =>
    by_cases hp : (p.1 == k) = true
    · have hpk : p.1 = k := by simpa using hp
      unfold dictErase
      rw [List.eraseP_cons_of_pos (p := fun q : PyStr × V => q.1 == k) hp]
      unfold dictLookup
      rw [List.find?_cons_of_neg (p := fun q : PyStr × V => q.1 == k') _
        (by simp [hpk]; exact fun h => hne h.symm)]
    · unfold dictErase
      rw [List.eraseP_cons_of_neg (p := fun q : PyStr × V => q.1 == k) (by simpa using hp)]
      by_cases hq : (p.1 == k') = true
      · unfold dictLookup
        rw [List.find?_cons_of_pos (p := fun q : PyStr × V => q.1 == k') _ hq]
        rw [List.find?_cons_of_pos (p := fun q : PyStr × V => q.1 == k') _ hq]
      · unfold dictLookup
        rw [List.find?_cons_of_neg (p := fun q : PyStr × V => q.1 == k') _ hq]
        rw [List.find?_cons_of_neg (p := fun q : PyStr × V => q.1 == k') _ hq]
        exact ih

/-- C9: `save_checkpoint` mutates the caller's state mapping by removing the
'cur_acc' key, leaves every other key bound as before, saves exactly the
mutated mapping (so the serialized checkpoint never contains 'cur_acc'), and
when `is_best` is true additionally copies the just-saved checkpoint file to
'model_best.pth.tar' inside the architecture-named directory. -/
theorem save_checkpoint_frame (state : List (PyStr × PyVal)) (is_best : Bool)
    (fmtAcc : PyVal → PyStr) (a : PyStr) (acc : PyVal) (e : Int)
    (hnd : (dictKeys state).Nodup)
    (ha : dictLookup state (pstr "arch") = some (PyVal.pyStr a))
    (hacc : dictLookup state (pstr "cur_acc") = some acc)
    (he : dictLookup (dictErase state (pstr "cur_acc")) (pstr "epoch")
        = some (PyVal.pyInt e)) :
    ∃ st' evs, save_checkpoint state is_best fmtAcc = some (st', evs) ∧
      st' = dictErase state (pstr "cur_acc") ∧
      dictLookup st' (pstr "cur_acc") = none ∧
      (∀ k, k ≠ pstr "cur_acc" → dictLookup st' k = dictLookup state k) ∧
      (∀ f s, FsEvent.torchSave f s ∈ evs → s = st') ∧
      (∃ f, FsEvent.torchSave f st' ∈ evs ∧
        (is_best = true →
          FsEvent.copyFile f (osPathJoin a (pstr "model_best.pth.tar")) ∈ evs)) := by
  have hpop : dictPop state (pstr "cur_acc")
      = some (acc, dictErase state (pstr "cur_acc")) := by
    unfold dictPop
    rw [hacc]
  refine ⟨dictErase state (pstr "cur_acc"),
    [FsEvent.ensureDir a,
     FsEvent.torchSave
       (osPathJoin a (a ++ pstr "_acc_" ++ fmtAcc acc ++ pstr "_epoch_"
         ++ pyIntRepr (e - 1) ++ pstr ".pth.tar"))
       (dictErase state (pstr "cur_acc"))]
    ++ (if is_best = true then
          [FsEvent.copyFile
            (osPathJoin a (a ++ pstr "_acc_" ++ fmtAcc acc ++ pstr "_epoch_"
              ++ pyIntRepr (e - 1) ++ pstr ".pth.tar"))
            (osPathJoin a (pstr "model_best.pth.tar"))]
        else []),
    ?_, rfl, ?_, ?_, ?_, ?_⟩
  · unfold save_checkpoint
    rw [ha, hpop]
    dsimp only
    rw [he]
  · exact dictLookup_erase_self state (pstr "cur_acc") hnd
  · intro k hk
    exact dictLookup_erase_ne state (pstr "cur_acc") k hk
  · intro f s hmem
    rcases List.mem_append.mp hmem with h | h
    · rcases List.mem_cons.mp h with h | h
      · exact FsEvent.noConfusion h
      · have h2 := List.mem_singleton.mp h
        cases h2
        rfl
    · cases hb : is_best with
      | true =>
        rw [hb, if_pos rfl] at h
        exact FsEvent.noConfusion (List.mem_singleton.mp h)
      | false =>
        rw [hb, if_neg Bool.false_ne_true] at h
        exact absurd h (List.not_mem_nil _)
  · refine ⟨osPathJoin a (a ++ pstr "_acc_" ++ fmtAcc acc ++ pstr "_epoch_"
        ++ pyIntRepr (e - 1) ++ pstr ".pth.tar"), ?_, ?_⟩
    · exact List.mem_append_left _ (List.mem_cons_of_mem _ (List.mem_singleton.mpr rfl))
    · intro hb
      refine List.mem_append_right _ ?_
      rw [if_pos hb]
      exact List.mem_singleton.mpr rfl

/-- Witness for C9 at a concrete six-entry checkpoint state with
`is_best = true`. -/
theorem save_checkpoint_frame_witness :
    let st0 : List (PyStr × PyVal) :=
      [(pstr "epoch", PyVal.pyInt 3), (pstr "arch", PyVal.pyStr (pstr "resnet18")),
       (pstr "state_dict", PyVal.pyDict []), (pstr "cur_acc", PyVal.pyFloat (707/10)),
       (pstr "best_acc1", PyVal.pyFloat 71), (pstr "optimizer", PyVal.pyDict [])]
    ∃ st' evs, save_checkpoint st0 true (fun _ => pstr "70.70") = some (st', evs) ∧
      st' = dictErase st0 (pstr "cur_acc") ∧
      dictLookup st' (pstr "cur_acc") = none ∧
      (∀ k, k ≠ pstr "cur_acc" → dictLookup st' k = dictLookup st0 k) ∧
      (∀ f s, FsEvent.torchSave f s ∈ evs → s = st') ∧
      (∃ f, FsEvent.torchSave f st' ∈ evs ∧
        (true = true →
          FsEvent.copyFile f (osPathJoin (pstr "resnet18") (pstr "model_best.pth.tar"))
            ∈ evs)) :=
  save_checkpoint_frame _ true _ (pstr "resnet18") (PyVal.pyFloat (707/10)) 3
    (by decide) rfl rfl rfl

/-! ## AverageMeter and validate (C10)

Embedding of `AverageMeter` (main_a.py, lines 510–527) and the meter use in
`validate` (lines 451–492).  Python floats are embedded as rationals; the
wall-clock `batch_time` meter is driven by real time and is outside the
embedding. -/

/-- `AverageMeter` statistics (the display name and format string do not
affect them).  In Python `avg = sum / count` raises on `count = 0`; in ℚ the
convention `x / 0 = 0` coincides with the reset value `avg = 0`. -/
structure AverageMeter where
  val : ℚ
  avg : ℚ
  sum : ℚ
  count : ℤ
  deriving DecidableEq, Repr

/-- `reset()`: all four statistics zeroed (also run by `__init__`). -/
def AverageMeter.reset : AverageMeter := ⟨0, 0, 0, 0⟩

/-- `update(val, n=1)`:
`self.val = val; self.sum += val * n; self.count += n; self.avg = self.sum / self.count`. -/
def AverageMeter.update (m : AverageMeter) (v : ℚ) (n : ℤ) : AverageMeter :=
  let sum := m.sum + v * (n : ℚ)
  let count := m.count + n
  { val := v, avg := sum / (count : ℚ), sum := sum, count := count }

/-- Running a sequence of `update(val, n)` calls. -/
def runUpdates (m : AverageMeter) (updates : List (ℚ × ℤ)) : AverageMeter :=
  updates.foldl (fun m p => m.update p.1 p.2) m

theorem runUpdates_stats (updates : List (ℚ × ℤ)) :
    ∀ m : AverageMeter,
      (runUpdates m updates).count = m.count + (updates.map Prod.snd).sum ∧
      (runUpdates m updates).sum
        = m.sum + (updates.map (fun p => p.1 * (p.2 : ℚ))).sum ∧
      (runUpdates m updates).val = (updates.map Prod.fst).getLastD m.val ∧
      (updates ≠ [] →
        (runUpdates m updates).avg
          = (runUpdates m updates).sum / ((runUpdates m updates).count : ℚ)) := by
  induction updates with
  | nil =>
    intro m
    refine ⟨by simp [runUpdates], by simp [runUpdates], by simp [runUpdates], ?_⟩
    intro h
    exact absurd rfl h
  | cons p rest ih =>
    intro m
    obtain ⟨hc, hs, hv, ha⟩ := ih (m.update p.1 p.2)
    have hrun : runUpdates m (p :: rest) = runUpdates (m.update p.1 p.2) rest := rfl
    refine ⟨?_, ?_, ?_, ?_⟩
    · rw [hrun, hc]
      simp [AverageMeter.update]
      ring
    · rw [hrun, hs]
      simp [AverageMeter.update]
      ring
    · rw [hrun, hv]
      cases rest with
      | nil => simp [AverageMeter.update]
      | cons q rest' =>
        simp only [List.map_cons, List.getLastD_cons]
    · intro _
      rw [hrun]
      rcases eq_or_ne rest [] with hrest | hrest
      · subst hrest
        rfl
      · exact ha hrest

/-- One validation batch as the data meters see it: the batch loss, top-1 and
top-5 accuracy values, and the batch size `images.size(0)`. -/
structure ValBatch where
  loss : ℚ
  acc1 : ℚ
  acc5 : ℚ
  batchSize : ℤ
  deriving DecidableEq, Repr

/-- The three data meters of `validate` (`losses`, `top1`, `top5`), threaded
through the loop: each batch performs `losses.update(loss.item(), n);
top1.update(acc1[0], n); top5.update(acc5[0], n)` with `n = images.size(0)`. -/
def validateMeters (batches : List ValBatch) :
    AverageMeter × AverageMeter × AverageMeter :=
  batches.foldl
    (fun ms b =>
      (ms.1.update b.loss b.batchSize,
       ms.2.1.update b.acc1 b.batchSize,
       ms.2.2.update b.acc5 b.batchSize))
    (AverageMeter.reset, AverageMeter.reset, AverageMeter.reset)

/-- `validate` returns `top1.avg`. -/
def validateTop1 (batches : List ValBatch) : ℚ :=
  (validateMeters batches).2.1.avg

theorem validate_fold_top1 (batches : List ValBatch) :
    ∀ ms : AverageMeter × AverageMeter × AverageMeter,
      (batches.foldl
        (fun ms b =>
          (ms.1.update b.loss b.batchSize,
           ms.2.1.update b.acc1 b.batchSize,
           ms.2.2.update b.acc5 b.batchSize)) ms).2.1
        = runUpdates ms.2.1 (batches.map (fun b => (b.acc1, b.batchSize))) := by
  induction batches with
  | nil =>
    intro ms
    rfl
  | cons b rest ih =>
    intro ms
    exact ih _

/-- C10: after reset followed by any nonempty sequence of `update(val, n)` calls
with positive `n`: `count` is the sum of the `n`s, `sum` is the sum of `val*n`
over all calls, `val` is the argument of the last update, `count` is positive
and `avg = sum / count` is the weighted mean of the observed values;
consequently `validate`'s returned `top1.avg` is the weighted mean accuracy
over all its batches. -/
theorem average_meter_invariant (updates : List (ℚ × ℤ))
    (hne : updates ≠ []) (hpos : ∀ p ∈ updates, 0 < p.2) :
    (runUpdates AverageMeter.reset updates).count = (updates.map Prod.snd).sum ∧
    (runUpdates AverageMeter.reset updates).sum
      = (updates.map (fun p => p.1 * (p.2 : ℚ))).sum ∧
    (runUpdates AverageMeter.reset updates).val = (updates.map Prod.fst).getLastD 0 ∧
    0 < (runUpdates AverageMeter.reset updates).count ∧
    (runUpdates AverageMeter.reset updates).avg
      = (updates.map (fun p => p.1 * (p.2 : ℚ))).sum
        / (((updates.map Prod.snd).sum : ℤ) : ℚ) ∧
    (∀ batches : List ValBatch, batches ≠ [] →
      validateTop1 batches
        = (batches.map (fun b => b.acc1 * (b.batchSize : ℚ))).sum
          / (((batches.map (fun b => b.batchSize)).sum : ℤ) : ℚ)) := by
  obtain ⟨hc, hs, hv, ha⟩ := runUpdates_stats updates AverageMeter.reset
  have hc' : (runUpdates AverageMeter.reset updates).count
      = (updates.map Prod.snd).sum := by
    rw [hc]
    simp [AverageMeter.reset]
  have hs' : (runUpdates AverageMeter.reset updates).sum
      = (updates.map (fun p => p.1 * (p.2 : ℚ))).sum := by
    rw [hs]
    simp [AverageMeter.reset]
  have hpos' : 0 < (updates.map Prod.snd).sum := by
    apply List.sum_pos
    · intro x hx
      obtain ⟨p, hp, rfl⟩ := List.mem_map.mp hx
      exact hpos p hp
    · simpa using hne
  refine ⟨hc', hs', ?_, ?_, ?_, ?_⟩
  · rw [hv]
    rfl
  · rw [hc']
    exact hpos'
  · rw [ha hne, hc', hs']
  · intro batches hb
    have htop := validate_fold_top1 batches
      (AverageMeter.reset, AverageMeter.reset, AverageMeter.reset)
    obtain ⟨hc2, hs2, hv2, ha2⟩ :=
      runUpdates_stats (batches.map (fun b => (b.acc1, b.batchSize))) AverageMeter.reset
    have hne2 : batches.map (fun b => (b.acc1, b.batchSize)) ≠ [] := by
      simpa using hb
    unfold validateTop1 validateMeters
    rw [htop]
    show (runUpdates AverageMeter.reset _).avg = _
    rw [ha2 hne2, hc2, hs2]
    simp [AverageMeter.reset, List.map_map, Function.comp]
    rfl

/-- Witness for C10: two updates `update(1, 2)` then `update(3, 2)` give
`count = 4`, `sum = 8`, `val = 3`, `avg = 2`. -/
theorem average_meter_invariant_witness :
    let updates : List (ℚ × ℤ) := [(1, 2), (3, 2)]
    (runUpdates AverageMeter.reset updates).count = (updates.map Prod.snd).sum ∧
    (runUpdates AverageMeter.reset updates).sum
      = (updates.map (fun p => p.1 * (p.2 : ℚ))).sum ∧
    (runUpdates AverageMeter.reset updates).val = (updates.map Prod.fst).getLastD 0 ∧
    0 < (runUpdates AverageMeter.reset updates).count ∧
    (runUpdates AverageMeter.reset updates).avg
      = (updates.map (fun p => p.1 * (p.2 : ℚ))).sum
        / (((updates.map Prod.snd).sum : ℤ) : ℚ) ∧
    (∀ batches : List ValBatch, batches ≠ [] →
      validateTop1 batches
        = (batches.map (fun b => b.acc1 * (b.batchSize : ℚ))).sum
          / (((batches.map (fun b => b.batchSize)).sum : ℤ) : ℚ)) :=
  average_meter_invariant [(1, 2), (3, 2)] (by decide) (by decide)

end MQBench
